import Mathlib

/-
Shallow embedding of the rust-vm instruction execution engine
(src/memory.rs and src/vm.rs).

Modelling conventions:
  * u8 / u16 values are Nat; overflow points in the source are modelled
    with explicit `% 256` / `% 65536` where the Rust types truncate or wrap.
  * Rust `Result<_, String>` is `Except Fault _`; the distinct `format!`
    error sites of the source are the constructors of `Fault`.
  * A Rust runtime panic (out-of-bounds array index) is the distinguished
    `Fault.rustPanic`, which is different from every returned error value.
  * The fixed byte arrays of `Memory` are total functions `Nat → Nat`
    together with the declared length constants; array indexing is modelled
    by `segGet` / `segSet`, which fault with `rustPanic` outside the array,
    and reads truncate with `% 256` since the cells are `u8`-typed.
  * The register file `[u16; 10]` is a `List Nat` of length 10; indexing is
    `regGet` / `regSet`, again panicking outside the list.
  * The nonterminating `loop` of the schedulers takes explicit fuel.
-/

namespace RustVM

inductive Fault where
  | invalidAddress (addr : Nat)
  | capacityExceeded
  | invalidRegister (b : Nat)
  | invalidInstruction (b : Nat)
  | rustPanic
deriving DecidableEq, Repr

def CODE_SEG_SIZE : Nat := 0x4000
def DATA_SEG_SIZE : Nat := 0x2000
def STACK_SEG_SIZE : Nat := 0xA000

def IX_SIZE_OFFSET : Nat := 1
def IX_META_SIZE : Nat := 2
def IX_DATA_OFFSET : Nat := 2

inductive Register where
  | A | B | C | D | E | F | H | L | SP | PC | DP
deriving DecidableEq, Repr

def Register.into_usize : Register → Nat
  | .A => 0
  | .B => 1
  | .C => 2
  | .D => 3
  | .E => 4
  | .F => 5
  | .H => 6
  | .L => 7
  | .SP => 8
  | .PC => 9
  | .DP => 10

def Register.try_from (val : Nat) : Except Fault Register :=
  if val = 0 then .ok .A
  else if val = 1 then .ok .B
  else if val = 2 then .ok .C
  else if val = 3 then .ok .D
  else if val = 4 then .ok .E
  else if val = 5 then .ok .F
  else if val = 6 then .ok .H
  else if val = 7 then .ok .L
  else if val = 8 then .ok .SP
  else if val = 9 then .ok .PC
  else if val = 10 then .ok .DP
  else .error (.invalidRegister val)

inductive IxType where
  | NOP | MOV | LDM | STM | ADD
deriving DecidableEq, Repr

def IxType.toByte : IxType → Nat
  | .NOP => 0
  | .MOV => 1
  | .LDM => 2
  | .STM => 3
  | .ADD => 4

def IxType.try_from (val : Nat) : Except Fault IxType :=
  if val = 0 then .ok .NOP
  else if val = 1 then .ok .MOV
  else if val = 2 then .ok .LDM
  else if val = 3 then .ok .STM
  else if val = 4 then .ok .ADD
  else .error (.invalidInstruction val)

def get_addr_from_two_bytes (high low : Nat) : Nat :=
  (high % 256) <<< 8 ||| (low % 256)

structure Memory where
  code_seg : Nat → Nat
  data_seg : Nat → Nat
  stack_seg : Nat → Nat

def check_illegal_mem_access (addr mem_size : Nat) : Except Fault Unit :=
  if addr > mem_size then .error (.invalidAddress addr) else .ok ()

/-- Indexing a fixed `[u8; len]` array: panics outside the array, and the
cell content is a byte. -/
def segGet (seg : Nat → Nat) (len addr : Nat) : Except Fault Nat :=
  if addr < len then .ok (seg addr % 256) else .error .rustPanic

def segSet (seg : Nat → Nat) (len addr v : Nat) : Except Fault (Nat → Nat) :=
  if addr < len then .ok (fun i => if i = addr then v % 256 else seg i)
  else .error .rustPanic

def Memory.load_ix (m : Memory) (from_addr : Nat) (data : List Nat) :
    Except Fault (Memory × Nat) :=
  if data.length > CODE_SEG_SIZE then .error .capacityExceeded
  else if from_addr + data.length ≤ CODE_SEG_SIZE then
    .ok ({ m with code_seg := fun i =>
            if from_addr ≤ i ∧ i < from_addr + data.length then
              data.getD (i - from_addr) 0 % 256
            else m.code_seg i },
         data.length)
  else .error .rustPanic

def Memory.write_code_seg (m : Memory) (data addr : Nat) : Except Fault Memory :=
  match check_illegal_mem_access addr CODE_SEG_SIZE with
  | .error e => .error e
  | .ok _ =>
    match segSet m.code_seg CODE_SEG_SIZE addr data with
    | .error e => .error e
    | .ok seg => .ok { m with code_seg := seg }

def Memory.write_data_seg (m : Memory) (data addr : Nat) : Except Fault Memory :=
  match check_illegal_mem_access addr DATA_SEG_SIZE with
  | .error e => .error e
  | .ok _ =>
    match segSet m.data_seg DATA_SEG_SIZE addr data with
    | .error e => .error e
    | .ok seg => .ok { m with data_seg := seg }

def Memory.write_stack_seg (m : Memory) (data addr : Nat) : Except Fault Memory :=
  match check_illegal_mem_access addr STACK_SEG_SIZE with
  | .error e => .error e
  | .ok _ =>
    match segSet m.stack_seg STACK_SEG_SIZE addr data with
    | .error e => .error e
    | .ok seg => .ok { m with stack_seg := seg }

def Memory.read_code_seg (m : Memory) (addr : Nat) : Except Fault Nat :=
  match check_illegal_mem_access addr CODE_SEG_SIZE with
  | .error e => .error e
  | .ok _ => segGet m.code_seg CODE_SEG_SIZE addr

def Memory.read_data_seg (m : Memory) (addr : Nat) : Except Fault Nat :=
  match check_illegal_mem_access addr DATA_SEG_SIZE with
  | .error e => .error e
  | .ok _ => segGet m.data_seg DATA_SEG_SIZE addr

def Memory.read_stack_seg (m : Memory) (addr : Nat) : Except Fault Nat :=
  match check_illegal_mem_access addr STACK_SEG_SIZE with
  | .error e => .error e
  | .ok _ => segGet m.stack_seg STACK_SEG_SIZE addr

/-- `read_code_seg_slice(addr, size)`: both bound checks of the source (the
second one on the wrapping u16 sum), then the slice `[addr..addr+size]`,
which panics when its end lies past the array. -/
def Memory.read_code_seg_slice (m : Memory) (addr size : Nat) :
    Except Fault (List Nat) :=
  match check_illegal_mem_access addr CODE_SEG_SIZE with
  | .error e => .error e
  | .ok _ =>
    match check_illegal_mem_access ((addr + size % 65536) % 65536) CODE_SEG_SIZE with
    | .error e => .error e
    | .ok _ =>
      if addr + size ≤ CODE_SEG_SIZE then
        .ok ((List.range size).map (fun i => m.code_seg (addr + i) % 256))
      else .error .rustPanic

def Memory.read_mem (m : Memory) (addr : Nat) : Except Fault Nat :=
  if addr < CODE_SEG_SIZE then m.read_code_seg addr
  else if addr < CODE_SEG_SIZE + DATA_SEG_SIZE then
    m.read_data_seg (addr - CODE_SEG_SIZE)
  else m.read_stack_seg (addr - CODE_SEG_SIZE - DATA_SEG_SIZE)

structure Ix where
  ix_type : IxType
  ix_data_size : Nat
  ix_data : List Nat
deriving DecidableEq, Repr

structure VMState where
  registers : List Nat
  memory : Memory

def VM.new : VMState :=
  { registers := List.replicate 10 0
    memory := { code_seg := fun _ => 0, data_seg := fun _ => 0, stack_seg := fun _ => 0 } }

/-- Indexing a `Vec<u8>` of operand bytes: a byte on success, a panic past
the end. -/
def vecGet (xs : List Nat) (i : Nat) : Except Fault Nat :=
  match xs[i]? with
  | some v => .ok (v % 256)
  | none => .error .rustPanic

/-- Indexing the `[u16; 10]` register array. -/
def regGet (regs : List Nat) (i : Nat) : Except Fault Nat :=
  match regs[i]? with
  | some v => .ok v
  | none => .error .rustPanic

def regSet (regs : List Nat) (i v : Nat) : Except Fault (List Nat) :=
  if i < regs.length then .ok (regs.set i v) else .error .rustPanic

/-- The per-opcode arm of `VM::exec_ix`, before the unconditional PC
advance.  The order of the fallible steps follows the source lines. -/
def exec_ix_arm (st : VMState) (inx : Ix) : Except Fault VMState :=
  match inx.ix_type with
  | .NOP => .ok st
  | .MOV =>
    match vecGet inx.ix_data 0 with
    | .error e => .error e
    | .ok b0 =>
      match Register.try_from b0 with
      | .error e => .error e
      | .ok reg =>
        match vecGet inx.ix_data 1 with
        | .error e => .error e
        | .ok b1 =>
          match regSet st.registers reg.into_usize b1 with
          | .error e => .error e
          | .ok regs => .ok { st with registers := regs }
  | .LDM =>
    match vecGet inx.ix_data 0 with
    | .error e => .error e
    | .ok b0 =>
      match vecGet inx.ix_data 1 with
      | .error e => .error e
      | .ok b1 =>
        match st.memory.read_data_seg (get_addr_from_two_bytes b0 b1) with
        | .error e => .error e
        | .ok d =>
          match vecGet inx.ix_data 2 with
          | .error e => .error e
          | .ok b2 =>
            match Register.try_from b2 with
            | .error e => .error e
            | .ok reg =>
              match regSet st.registers reg.into_usize d with
              | .error e => .error e
              | .ok regs => .ok { st with registers := regs }
  | .STM =>
    match vecGet inx.ix_data 0 with
    | .error e => .error e
    | .ok b0 =>
      match vecGet inx.ix_data 1 with
      | .error e => .error e
      | .ok b1 =>
        match vecGet inx.ix_data 2 with
        | .error e => .error e
        | .ok b2 =>
          match regGet st.registers b2 with
          | .error e => .error e
          | .ok reg_val =>
            match st.memory.write_data_seg (reg_val % 256)
                (get_addr_from_two_bytes b0 b1) with
            | .error e => .error e
            | .ok mem => .ok { st with memory := mem }
  | .ADD =>
    match vecGet inx.ix_data 0 with
    | .error e => .error e
    | .ok b0 =>
      match vecGet inx.ix_data 1 with
      | .error e => .error e
      | .ok b1 =>
        match vecGet inx.ix_data 2 with
        | .error e => .error e
        | .ok b2 =>
          match Register.try_from b2 with
          | .error e => .error e
          | .ok reg =>
            match regGet st.registers reg.into_usize with
            | .error e => .error e
            | .ok reg_val =>
              match st.memory.read_data_seg (get_addr_from_two_bytes b0 b1) with
              | .error e => .error e
              | .ok d =>
                match regSet st.registers reg.into_usize
                    ((reg_val + d) % 65536) with
                | .error e => .error e
                | .ok regs => .ok { st with registers := regs }

/-- `VM::exec_ix`: the opcode arm, then the unconditional PC advance by
`ix_data_size + IX_META_SIZE` (a wrapping u16 `+=`). -/
def exec_ix (st : VMState) (inx : Ix) : Except Fault VMState :=
  match exec_ix_arm st inx with
  | .error e => .error e
  | .ok st1 =>
    match regGet st1.registers Register.PC.into_usize with
    | .error e => .error e
    | .ok pc =>
      match regSet st1.registers Register.PC.into_usize
          ((pc + inx.ix_data_size % 256 + IX_META_SIZE) % 65536) with
      | .error e => .error e
      | .ok regs => .ok { st1 with registers := regs }

/-- Outcome of the sequential scheduler loop, together with the list of
instructions it actually executed, in execution order. -/
inductive SeqOutcome where
  | halted (st : VMState) (tr : List Ix)
  | fault (e : Fault) (tr : List Ix)
  | fuelOut (tr : List Ix)

def SeqOutcome.trace : SeqOutcome → List Ix
  | .halted _ tr => tr
  | .fault _ tr => tr
  | .fuelOut tr => tr

def SeqOutcome.isHalted : SeqOutcome → Bool
  | .halted _ _ => true
  | _ => false

def SeqOutcome.push (inx : Ix) : SeqOutcome → SeqOutcome
  | .halted st tr => .halted st (inx :: tr)
  | .fault e tr => .fault e (inx :: tr)
  | .fuelOut tr => .fuelOut (inx :: tr)

/-- `VM::parseand_exec_ixs_seq`: read PC, read the opcode byte, stop on NOP,
read the length byte and the operand slice, parse the opcode, execute,
repeat.  The source `loop` gets explicit fuel. -/
def parseand_exec_ixs_seq (fuel : Nat) (st : VMState) : SeqOutcome :=
  match fuel with
  | 0 => .fuelOut []
  | fuel + 1 =>
    match regGet st.registers Register.PC.into_usize with
    | .error e => .fault e []
    | .ok pc =>
      match st.memory.read_code_seg pc with
      | .error e => .fault e []
      | .ok ix =>
        if ix = IxType.NOP.toByte then .halted st []
        else
          match st.memory.read_code_seg ((pc + IX_SIZE_OFFSET) % 65536) with
          | .error e => .fault e []
          | .ok ix_data_size =>
            match st.memory.read_code_seg_slice ((pc + IX_DATA_OFFSET) % 65536)
                ix_data_size with
            | .error e => .fault e []
            | .ok ix_data =>
              match IxType.try_from ix with
              | .error e => .fault e []
              | .ok t =>
                match exec_ix st ⟨t, ix_data_size, ix_data⟩ with
                | .error e => .fault e []
                | .ok st1 =>
                  (parseand_exec_ixs_seq fuel st1).push ⟨t, ix_data_size, ix_data⟩

def exec_seq (fuel : Nat) (st : VMState) : SeqOutcome :=
  parseand_exec_ixs_seq fuel st

/-- The scan phase of `VM::parse_and_exec_ixs_concurrent`: headers only.
Note the source reads the size byte before testing the opcode for NOP, and
advances the cursor with wrapping u16 sums.  `none` is fuel exhaustion. -/
def scan_ixs (fuel : Nat) (m : Memory) (ix_pointer count : Nat) :
    Option (Except Fault Nat) :=
  match fuel with
  | 0 => none
  | fuel + 1 =>
    match m.read_code_seg ix_pointer with
    | .error e => some (.error e)
    | .ok ix =>
      match m.read_code_seg ((ix_pointer + IX_SIZE_OFFSET) % 65536) with
      | .error e => some (.error e)
      | .ok ix_data_size =>
        if ix = IxType.NOP.toByte then some (.ok count)
        else scan_ixs fuel m ((ix_pointer + ix_data_size + IX_META_SIZE) % 65536)
              (count + 1)

/-- Result of `VM::parse_and_exec_ixs_concurrent`.  When at least one task
is spawned the tasks race on the shared PC and state, so only the number of
dispatched tasks is recorded; with zero tasks the function joins nothing and
returns with the state untouched. -/
inductive ConcOutcome where
  | done (st : VMState)
  | fault (e : Fault)
  | spawned (tasks : Nat)

def parse_and_exec_ixs_concurrent (fuel : Nat) (st : VMState) :
    Option ConcOutcome :=
  match regGet st.registers Register.PC.into_usize with
  | .error e => some (.fault e)
  | .ok pc =>
    match scan_ixs fuel st.memory pc 0 with
    | none => none
    | some (.error e) => some (.fault e)
    | some (.ok ixs_count) =>
      if ixs_count / 10 = 0 then some (.done st)
      else some (.spawned (ixs_count / 10))

/- ------------------------------------------------------------------ -/
/- Program layout: encoding a list of instructions into the code
   segment, terminated by a NOP opcode byte.                          -/
/- ------------------------------------------------------------------ -/

def encode_ix (inx : Ix) : List Nat :=
  inx.ix_type.toByte :: inx.ix_data.length :: inx.ix_data

def encode_program (p : List Ix) : List Nat :=
  match p with
  | [] => [IxType.NOP.toByte]
  | inx :: rest => encode_ix inx ++ encode_program rest

/-- Well-formed non-NOP instruction: the size field agrees with the operand
list, operands are bytes, the operand count suffices for the opcode, the
target register identifier has an in-range register slot and is not PC
(identifiers 0–8; for STM, whose register is only read, 0–9), and the data
address is inside the data segment. -/
def wf_ix (inx : Ix) : Bool :=
  (inx.ix_data_size == inx.ix_data.length) &&
  decide (inx.ix_data.length < 256) &&
  inx.ix_data.all (fun b => decide (b < 256)) &&
  match inx.ix_type with
  | .NOP => false
  | .MOV => decide (2 ≤ inx.ix_data.length) && decide (inx.ix_data.getD 0 0 ≤ 8)
  | .LDM => decide (3 ≤ inx.ix_data.length) && decide (inx.ix_data.getD 2 0 ≤ 8) &&
      decide (get_addr_from_two_bytes (inx.ix_data.getD 0 0) (inx.ix_data.getD 1 0)
        < DATA_SEG_SIZE)
  | .STM => decide (3 ≤ inx.ix_data.length) && decide (inx.ix_data.getD 2 0 ≤ 9) &&
      decide (get_addr_from_two_bytes (inx.ix_data.getD 0 0) (inx.ix_data.getD 1 0)
        < DATA_SEG_SIZE)
  | .ADD => decide (3 ≤ inx.ix_data.length) && decide (inx.ix_data.getD 2 0 ≤ 8) &&
      decide (get_addr_from_two_bytes (inx.ix_data.getD 0 0) (inx.ix_data.getD 1 0)
        < DATA_SEG_SIZE)

/-- The bytes `bytes` sit in the code array `c` starting at `pc0`. -/
abbrev laid_out (c : Nat → Nat) (pc0 : Nat) (bytes : List Nat) : Prop :=
  ∀ i, i < bytes.length → c (pc0 + i) = bytes.getD i 0

/-- Does the instruction write to the PC register slot (MOV/LDM/ADD whose
target register byte is 9)?  STM only reads its register. -/
def targets_pc (inx : Ix) : Bool :=
  match inx.ix_type with
  | .MOV => inx.ix_data.getD 0 0 % 256 == 9
  | .LDM => inx.ix_data.getD 2 0 % 256 == 9
  | .ADD => inx.ix_data.getD 2 0 % 256 == 9
  | _ => false

instance {ε α : Type} [DecidableEq ε] [DecidableEq α] : DecidableEq (Except ε α) :=
  fun a b =>
    match a, b with
    | .ok x, .ok y => decidable_of_iff (x = y) (by simp)
    | .ok _, .error _ => .isFalse (by simp)
    | .error _, .ok _ => .isFalse (by simp)
    | .error e, .error f => decidable_of_iff (e = f) (by simp)

def exceptIsOk : Except Fault Nat → Bool
  | .ok _ => true
  | .error _ => false

/- ------------------------------------------------------------------ -/
/- Helper lemmas                                                      -/
/- ------------------------------------------------------------------ -/

theorem getD_append_lt (l l' : List Nat) (i : Nat) (h : i < l.length) :
    (l ++ l').getD i 0 = l.getD i 0 := by
  simp only [List.getD_eq_getElem?_getD, List.getElem?_append_left h]

theorem getD_append_ge (l l' : List Nat) (i : Nat) (h : l.length ≤ i) :
    (l ++ l').getD i 0 = l'.getD (i - l.length) 0 := by
  simp only [List.getD_eq_getElem?_getD]
  rw [List.getElem?_append_right h]

theorem getElem?_some_lt_length (l : List Nat) (n a : Nat) (h : l[n]? = some a) :
    n < l.length := by
  by_contra hc
  rw [List.getElem?_eq_none (Nat.le_of_not_lt hc)] at h
  exact Option.noConfusion h

theorem map_range_eq : ∀ (l : List Nat) (f : Nat → Nat),
    (∀ i, i < l.length → f i = l.getD i 0) → (List.range l.length).map f = l
  | [], _, _ => rfl
  | a :: l, f, h => by
    rw [List.length_cons, List.range_succ_eq_map, List.map_cons, List.map_map]
    have h0 : f 0 = a := h 0 (Nat.succ_pos _)
    have ih := map_range_eq l (f ∘ Nat.succ)
      (fun i hi => h (i + 1) (Nat.succ_lt_succ hi))
    rw [h0, ih]

theorem register_try_from_le (b : Nat) (hb : b ≤ 10) :
    ∃ r, Register.try_from b = .ok r ∧ r.into_usize = b := by
  unfold Register.try_from
  interval_cases b <;> exact ⟨_, rfl, rfl⟩

set_option maxHeartbeats 1600000 in
theorem register_try_from_err (b : Nat) (hb : 11 ≤ b) :
    Register.try_from b = .error (.invalidRegister b) := by
  unfold Register.try_from
  split_ifs <;> first | rfl | omega

theorem register_try_from_ok (b : Nat) (r : Register)
    (h : Register.try_from b = .ok r) : r.into_usize = b ∧ b ≤ 10 := by
  by_cases hb : b ≤ 10
  · obtain ⟨r', hr', hiu⟩ := register_try_from_le b hb
    rw [hr'] at h
    injection h with h'
    subst h'
    exact ⟨hiu, hb⟩
  · rw [register_try_from_err b (by omega)] at h
    exact Except.noConfusion h

/- ------------------------------------------------------------------ -/
/- Claim theorems                                                     -/
/- ------------------------------------------------------------------ -/

/-- Claim C3: for each segment (code, data, stack) and every address, a
single-byte read or write returns the OutOfBounds error
(`Fault.invalidAddress`) if and only if the address is strictly greater
than the segment's declared capacity (0x4000 / 0x2000 / 0xA000), and the
address exactly equal to the capacity passes the bounds check
(`check_illegal_mem_access` accepts it; the subsequent array index then
trips the distinct out-of-bounds panic, not the OutOfBounds error). -/
theorem single_byte_bounds_iff (m : Memory) (addr d : Nat) :
    (m.read_code_seg addr = .error (.invalidAddress addr) ↔ CODE_SEG_SIZE < addr) ∧
    (m.read_data_seg addr = .error (.invalidAddress addr) ↔ DATA_SEG_SIZE < addr) ∧
    (m.read_stack_seg addr = .error (.invalidAddress addr) ↔ STACK_SEG_SIZE < addr) ∧
    (m.write_code_seg d addr = .error (.invalidAddress addr) ↔ CODE_SEG_SIZE < addr) ∧
    (m.write_data_seg d addr = .error (.invalidAddress addr) ↔ DATA_SEG_SIZE < addr) ∧
    (m.write_stack_seg d addr = .error (.invalidAddress addr) ↔ STACK_SEG_SIZE < addr) ∧
    check_illegal_mem_access CODE_SEG_SIZE CODE_SEG_SIZE = .ok () ∧
    check_illegal_mem_access DATA_SEG_SIZE DATA_SEG_SIZE = .ok () ∧
    check_illegal_mem_access STACK_SEG_SIZE STACK_SEG_SIZE = .ok () ∧
    m.read_code_seg CODE_SEG_SIZE = .error .rustPanic ∧
    m.read_data_seg DATA_SEG_SIZE = .error .rustPanic ∧
    m.read_stack_seg STACK_SEG_SIZE = .error .rustPanic := by
  refine ⟨?_, ?_, ?_, ?_, ?_, ?_, ?_, ?_, ?_, ?_, ?_, ?_⟩ <;>
    simp only [Memory.read_code_seg, Memory.read_data_seg, Memory.read_stack_seg,
      Memory.write_code_seg, Memory.write_data_seg, Memory.write_stack_seg,
      check_illegal_mem_access, segGet, segSet] <;>
    split_ifs <;> simp_all

theorem read_code_seg_lt (m : Memory) (addr : Nat) (h : addr < CODE_SEG_SIZE) :
    m.read_code_seg addr = .ok (m.code_seg addr % 256) := by
  unfold Memory.read_code_seg check_illegal_mem_access
  rw [if_neg (by omega)]
  show segGet m.code_seg CODE_SEG_SIZE addr = _
  unfold segGet
  rw [if_pos h]

theorem read_data_seg_lt (m : Memory) (addr : Nat) (h : addr < DATA_SEG_SIZE) :
    m.read_data_seg addr = .ok (m.data_seg addr % 256) := by
  unfold Memory.read_data_seg check_illegal_mem_access
  rw [if_neg (by omega)]
  show segGet m.data_seg DATA_SEG_SIZE addr = _
  unfold segGet
  rw [if_pos h]

theorem read_stack_seg_lt (m : Memory) (addr : Nat) (h : addr < STACK_SEG_SIZE) :
    m.read_stack_seg addr = .ok (m.stack_seg addr % 256) := by
  unfold Memory.read_stack_seg check_illegal_mem_access
  rw [if_neg (by omega)]
  show segGet m.stack_seg STACK_SEG_SIZE addr = _
  unfold segGet
  rw [if_pos h]

theorem write_data_seg_lt (m : Memory) (d addr : Nat) (h : addr < DATA_SEG_SIZE) :
    m.write_data_seg d addr =
      .ok { m with data_seg := fun i => if i = addr then d % 256 else m.data_seg i } := by
  unfold Memory.write_data_seg check_illegal_mem_access
  rw [if_neg (by omega)]
  show (match segSet m.data_seg DATA_SEG_SIZE addr d with
    | Except.error e => Except.error e
    | Except.ok seg => Except.ok { m with data_seg := seg }) = _
  unfold segSet
  rw [if_pos h]

theorem read_code_seg_slice_le (m : Memory) (addr size : Nat)
    (h : addr + size ≤ CODE_SEG_SIZE) :
    m.read_code_seg_slice addr size =
      .ok ((List.range size).map (fun i => m.code_seg (addr + i) % 256)) := by
  unfold Memory.read_code_seg_slice check_illegal_mem_access
  have hsz : size % 65536 = size :=
    Nat.mod_eq_of_lt (by unfold CODE_SEG_SIZE at h; omega)
  have hmod : (addr + size % 65536) % 65536 = addr + size := by
    rw [hsz]
    exact Nat.mod_eq_of_lt (by unfold CODE_SEG_SIZE at h; omega)
  rw [if_neg (by omega)]
  show (match (if (addr + size % 65536) % 65536 > CODE_SEG_SIZE then
      Except.error (Fault.invalidAddress ((addr + size % 65536) % 65536))
    else Except.ok ()) with
    | Except.error e => Except.error e
    | Except.ok _ => if addr + size ≤ CODE_SEG_SIZE then
        Except.ok ((List.range size).map (fun i => m.code_seg (addr + i) % 256))
      else Except.error Fault.rustPanic) = _
  rw [if_neg (by omega)]
  show (if addr + size ≤ CODE_SEG_SIZE then
      Except.ok ((List.range size).map (fun i => m.code_seg (addr + i) % 256))
    else .error Fault.rustPanic) = _
  rw [if_pos h]

/-- Claim C10: the unified read `read_mem` is total on 16-bit addresses:
the three segment capacities sum to exactly 2^16, so every address below
65536 lands inside some segment and the read returns a byte, never an
error. -/
theorem read_mem_total (m : Memory) (addr : Nat) (h : addr < 65536) :
    exceptIsOk (m.read_mem addr) = true := by
  unfold Memory.read_mem
  by_cases h1 : addr < CODE_SEG_SIZE
  · rw [if_pos h1, read_code_seg_lt m addr h1]
    rfl
  · rw [if_neg h1]
    by_cases h2 : addr < CODE_SEG_SIZE + DATA_SEG_SIZE
    · rw [if_pos h2, read_data_seg_lt m _ (by
        unfold CODE_SEG_SIZE DATA_SEG_SIZE at *; omega)]
      rfl
    · rw [if_neg h2, read_stack_seg_lt m _ (by
        unfold CODE_SEG_SIZE DATA_SEG_SIZE STACK_SEG_SIZE at *; omega)]
      rfl

/-- Witness for C10 at the concrete stack-segment address 40000. -/
theorem read_mem_total_witness :
    40000 < 65536 ∧ exceptIsOk (VM.new.memory.read_mem 40000) = true :=
  ⟨by omega, read_mem_total VM.new.memory 40000 (by omega)⟩

/-- Claim C8: `load_ix` returns the CapacityExceeded error exactly when the
payload is longer than the whole code segment, regardless of the start
address; and whenever the copy fits, it succeeds, reports the payload
length as the number of bytes written, and places the payload bytes at
`from_addr`. -/
theorem load_ix_spec (m : Memory) (a : Nat) (data : List Nat) :
    (m.load_ix a data = .error .capacityExceeded ↔ CODE_SEG_SIZE < data.length) ∧
    (a + data.length ≤ CODE_SEG_SIZE →
      ((m.load_ix a data).map Prod.snd = .ok data.length ∧
        ∀ i, i < data.length →
          (m.load_ix a data).map (fun r => r.1.code_seg (a + i)) =
            .ok (data.getD i 0 % 256))) := by
  constructor
  · unfold Memory.load_ix
    split_ifs <;> simp_all
  · intro hfit
    have hle : ¬ data.length > CODE_SEG_SIZE := by omega
    unfold Memory.load_ix
    rw [if_neg hle, if_pos hfit]
    refine ⟨rfl, fun i hi => ?_⟩
    simp only [Except.map]
    rw [if_pos ⟨Nat.le_add_right a i, by omega⟩, Nat.add_sub_cancel_left]

/-- Witness for C8: loading three bytes at address 5 of a fresh memory
writes three bytes and places byte value 2 at address 6. -/
theorem load_ix_spec_witness :
    (VM.new.memory.load_ix 5 [1, 2, 3]).map Prod.snd = .ok 3 ∧
    (VM.new.memory.load_ix 5 [1, 2, 3]).map (fun r => r.1.code_seg (5 + 1)) =
      .ok 2 := by
  have h := (load_ix_spec VM.new.memory 5 [1, 2, 3]).2 (by decide)
  exact ⟨h.1, h.2 1 (by simp)⟩

/-- Claim C9: the register-identifier decoder accepts byte 10 as DP, but
the register file has only 10 slots (indices 0–9), so every instruction
naming DP trips the out-of-bounds register-array access: MOV, STM and ADD
unconditionally, LDM for any in-bounds data address (its data-segment read
happens before the register access). -/
theorem dp_register_out_of_range (st : VMState) (v hi lo : Nat)
    (hlen : st.registers.length = 10) (hv : v < 256) (hhi : hi < 256) (hlo : lo < 256)
    (haddr : get_addr_from_two_bytes hi lo < DATA_SEG_SIZE) :
    Register.try_from 10 = .ok Register.DP ∧
    Register.DP.into_usize = 10 ∧
    exec_ix st ⟨.MOV, 2, [10, v]⟩ = .error .rustPanic ∧
    exec_ix st ⟨.LDM, 3, [hi, lo, 10]⟩ = .error .rustPanic ∧
    exec_ix st ⟨.STM, 3, [hi, lo, 10]⟩ = .error .rustPanic ∧
    exec_ix st ⟨.ADD, 3, [hi, lo, 10]⟩ = .error .rustPanic := by
  have hhi' : hi % 256 = hi := Nat.mod_eq_of_lt hhi
  have hlo' : lo % 256 = lo := Nat.mod_eq_of_lt hlo
  have hread := read_data_seg_lt st.memory _ haddr
  have h10 : st.registers[10]? = none := List.getElem?_eq_none (by omega)
  refine ⟨rfl, rfl, ?_, ?_, ?_, ?_⟩ <;>
    simp [exec_ix, exec_ix_arm, vecGet, regGet, regSet, Register.try_from,
      Register.into_usize, hlen, hhi', hlo', hread, h10]

/-- Witness for C9: a MOV naming DP on a fresh VM panics on the register
array. -/
theorem dp_register_out_of_range_witness :
    VM.new.registers.length = 10 ∧
    exec_ix VM.new ⟨.MOV, 2, [10, 7]⟩ = .error .rustPanic :=
  ⟨by decide,
    (dp_register_out_of_range VM.new 7 0 0 (by decide) (by omega) (by omega)
      (by omega) (by decide)).2.2.1⟩

/-- Claim C7: the concurrent scheduler's scan phase counts the instructions
before the NOP header; with `n` scanned instructions exactly `n / 10` tasks
are dispatched, and in particular for `n < 10` zero tasks are spawned and
the call returns Ok with registers and memory untouched. -/
theorem concurrent_dispatch (fuel : Nat) (st : VMState) (pc n : Nat)
    (hpc : st.registers[9]? = some pc)
    (hscan : scan_ixs fuel st.memory pc 0 = some (.ok n)) :
    (n < 10 → parse_and_exec_ixs_concurrent fuel st = some (.done st)) ∧
    (10 ≤ n → parse_and_exec_ixs_concurrent fuel st = some (.spawned (n / 10))) := by
  unfold parse_and_exec_ixs_concurrent regGet
  simp only [Register.into_usize, hpc, hscan]
  constructor <;> intro h
  · rw [if_pos (by omega)]
  · rw [if_neg (by omega)]

def stW7 : VMState :=
  { registers := List.replicate 10 0
    memory := { VM.new.memory with
      code_seg := fun i => [1, 2, 0, 7, 1, 2, 1, 8, 1, 2, 2, 9, 0, 0].getD i 0 } }

/-- Witness for C7: a three-instruction program is scanned as N = 3, zero
tasks are dispatched, and the state comes back untouched. -/
theorem concurrent_dispatch_witness :
    scan_ixs 4 stW7.memory 0 0 = some (.ok 3) ∧
    parse_and_exec_ixs_concurrent 4 stW7 = some (.done stW7) :=
  ⟨by decide, (concurrent_dispatch 4 stW7 0 3 (by decide) (by decide)).1 (by omega)⟩

/-- Claim C4 (amended): for every register identifier 0–8 (A, B, C, D, E,
F, H, L, SP) and every imm8 in [0,255], executing MOV and then reading the
register returns imm8 zero-extended.  The claim's remaining identifiers
fail: for PC the unconditional post-instruction PC advance overwrites the
moved value, and for DP the register write indexes past the register
array; see the counterexample. -/
theorem mov_then_read (st : VMState) (r imm : Nat)
    (hr : r ≤ 8) (himm : imm < 256) (hlen : st.registers.length = 10) :
    (exec_ix st ⟨.MOV, 2, [r, imm]⟩).bind (fun s => regGet s.registers r) =
      .ok imm := by
  obtain ⟨reg, hreg, hiu⟩ := register_try_from_le r (by omega)
  have hr' : r % 256 = r := Nat.mod_eq_of_lt (by omega)
  have himm' : imm % 256 = imm := Nat.mod_eq_of_lt himm
  have hrlt : r < 10 := by omega
  have h9 : (9 : Nat) < st.registers.length := by omega
  have hpc9 := List.getElem?_eq_getElem h9
  have hset9 : (st.registers.set r imm)[9]? = st.registers[9]? :=
    List.getElem?_set_ne (by omega)
  have hsetr : ∀ x : Nat, ((st.registers.set r imm).set 9 x)[r]? =
      (st.registers.set r imm)[r]? :=
    fun x => List.getElem?_set_ne (by omega)
  have hfin : (st.registers.set r imm)[r]? = some imm :=
    List.getElem?_set_eq_of_lt imm (by omega)
  simp [exec_ix, exec_ix_arm, vecGet, regGet, regSet, hr', himm', hreg, hiu,
    hlen, hrlt, hpc9, hset9, hsetr, hfin,
    show Register.PC.into_usize = 9 from rfl, Except.bind]

/-- Witness for C4 at register C (identifier 3) and imm8 = 200. -/
theorem mov_then_read_witness :
    (3 ≤ 8 ∧ 200 < 256 ∧ VM.new.registers.length = 10) ∧
    (exec_ix VM.new ⟨.MOV, 2, [3, 200]⟩).bind (fun s => regGet s.registers 3) =
      .ok 200 :=
  ⟨⟨by omega, by omega, by decide⟩,
    mov_then_read VM.new 3 200 (by omega) (by omega) (by decide)⟩

/-- Counterexample for C4 as stated: MOV to the PC identifier (9) reads
back 11 = imm8 + 4, not imm8 = 7, because the PC advance runs after the
move; and MOV to the DP identifier (10) does not terminate normally at all
but trips the register-array bounds panic. -/
theorem mov_then_read_counterexample :
    ((exec_ix VM.new ⟨.MOV, 2, [9, 7]⟩).bind (fun s => regGet s.registers 9) =
        .ok 11 ∧ (11 : Nat) ≠ 7) ∧
    (exec_ix VM.new ⟨.MOV, 2, [10, 7]⟩).bind (fun s => regGet s.registers 10) =
      .error .rustPanic := by
  refine ⟨⟨?_, by omega⟩, ?_⟩ <;> rfl

/-- Claim C5 (amended): for every in-bounds data-segment address holding
byte `d` and every register among identifiers 0–8 with prior value `v`,
ADD stores `(v + d) % 65536` into the register (wrapping).  For PC the
post-instruction advance adds a further operand-length + 2, and for DP the
register access panics; see the counterexample. -/
theorem add_wrapping (st : VMState) (r hi lo v d : Nat)
    (hr : r ≤ 8) (hhi : hi < 256) (hlo : lo < 256)
    (haddr : get_addr_from_two_bytes hi lo < DATA_SEG_SIZE)
    (hlen : st.registers.length = 10)
    (hv : st.registers[r]? = some v) (hv16 : v < 65536)
    (hd : st.memory.data_seg (get_addr_from_two_bytes hi lo) = d) (hd8 : d < 256) :
    (exec_ix st ⟨.ADD, 3, [hi, lo, r]⟩).bind (fun s => regGet s.registers r) =
      .ok ((v + d) % 65536) := by
  obtain ⟨reg, hreg, hiu⟩ := register_try_from_le r (by omega)
  have hhi' : hi % 256 = hi := Nat.mod_eq_of_lt hhi
  have hlo' : lo % 256 = lo := Nat.mod_eq_of_lt hlo
  have hr' : r % 256 = r := Nat.mod_eq_of_lt (by omega)
  have hd' : d % 256 = d := Nat.mod_eq_of_lt hd8
  have hrlt : r < 10 := by omega
  have hread := read_data_seg_lt st.memory _ haddr
  have h9 : (9 : Nat) < st.registers.length := by omega
  have hpc9 := List.getElem?_eq_getElem h9
  have hset9 : ∀ y : Nat, (st.registers.set r y)[9]? = st.registers[9]? :=
    fun y => List.getElem?_set_ne (by omega)
  have hsetr : ∀ y x : Nat, ((st.registers.set r y).set 9 x)[r]? =
      (st.registers.set r y)[r]? :=
    fun y x => List.getElem?_set_ne (by omega)
  have hfin : ∀ y : Nat, (st.registers.set r y)[r]? = some y :=
    fun y => List.getElem?_set_eq_of_lt y (by omega)
  simp [exec_ix, exec_ix_arm, vecGet, regGet, regSet, hhi', hlo', hr', hd', hd,
    hreg, hiu, hlen, hrlt, hread, hv, hpc9, hset9, hsetr, hfin,
    show Register.PC.into_usize = 9 from rfl, Except.bind]

def stC5 : VMState :=
  { registers := (List.replicate 10 0).set 2 65535
    memory := { VM.new.memory with data_seg := fun i => if i = 0 then 1 else 0 } }

/-- Witness for C5 at the wraparound point the claim singles out: register
C holds 65535, the data byte is 1, and ADD yields 0. -/
theorem add_wrapping_witness :
    (stC5.registers[2]? = some 65535 ∧ stC5.memory.data_seg 0 = 1) ∧
    (exec_ix stC5 ⟨.ADD, 3, [0, 0, 2]⟩).bind (fun s => regGet s.registers 2) =
      .ok 0 :=
  ⟨⟨by decide, by decide⟩,
    add_wrapping stC5 2 0 0 65535 1 (by omega) (by omega) (by omega) (by decide)
      (by decide) (by decide) (by omega) (by decide) (by omega)⟩

/-- Counterexample for C5 as stated: PC is a valid register identifier
with prior value 0, the data byte at address 0 is 1, yet ADD leaves PC at
6, not (0 + 1) % 65536 = 1, because the unconditional PC advance adds the
instruction size afterwards. -/
theorem add_wrapping_counterexample :
    (exec_ix stC5 ⟨.ADD, 3, [0, 0, 9]⟩).bind (fun s => regGet s.registers 9) =
      .ok 6 ∧ (6 : Nat) ≠ (0 + 1) % 65536 := by
  exact ⟨rfl, by omega⟩

/-- Claim C6 (amended): for MOV, LDM and ADD, an operand register byte
outside the recognized range (≥ 11) aborts the instruction with the
InvalidRegister error, which the sequential scheduler surfaces to its
caller (shown for MOV decoded from the code segment); LDM needs its data
address in bounds because its memory read precedes register decoding.  STM
however never decodes its register byte: it indexes the register array with
the raw byte, so an unrecognized byte trips the array-bounds panic instead
of returning InvalidRegister; see the counterexample. -/
theorem invalid_register_aborts (st : VMState) (b v hi lo fuel : Nat)
    (hb : 11 ≤ b) (hb8 : b < 256) (hv : v < 256) (hhi : hi < 256) (hlo : lo < 256)
    (hlen : st.registers.length = 10) :
    exec_ix st ⟨.MOV, 2, [b, v]⟩ = .error (.invalidRegister b) ∧
    (get_addr_from_two_bytes hi lo < DATA_SEG_SIZE →
      exec_ix st ⟨.LDM, 3, [hi, lo, b]⟩ = .error (.invalidRegister b)) ∧
    exec_ix st ⟨.ADD, 3, [hi, lo, b]⟩ = .error (.invalidRegister b) ∧
    exec_ix st ⟨.STM, 3, [hi, lo, b]⟩ = .error .rustPanic ∧
    (∀ pc, st.registers[9]? = some pc →
      st.memory.code_seg pc = 1 →
      st.memory.code_seg (pc + 1) = 2 →
      st.memory.code_seg (pc + 2) = b →
      st.memory.code_seg (pc + 3) = v →
      pc + 4 ≤ CODE_SEG_SIZE →
      parseand_exec_ixs_seq (fuel + 1) st = .fault (.invalidRegister b) []) := by
  have herr := register_try_from_err b hb
  have hb' : b % 256 = b := Nat.mod_eq_of_lt hb8
  have hv' : v % 256 = v := Nat.mod_eq_of_lt hv
  have hhi' : hi % 256 = hi := Nat.mod_eq_of_lt hhi
  have hlo' : lo % 256 = lo := Nat.mod_eq_of_lt hlo
  have hbnone : st.registers[b]? = none := List.getElem?_eq_none (by omega)
  have hmov : exec_ix st ⟨.MOV, 2, [b, v]⟩ = .error (.invalidRegister b) := by
    simp [exec_ix, exec_ix_arm, vecGet, hb', hv', herr]
  refine ⟨hmov, ?_, ?_, ?_, ?_⟩
  · intro haddr
    have hread := read_data_seg_lt st.memory _ haddr
    simp [exec_ix, exec_ix_arm, vecGet, hb', hhi', hlo', herr, hread]
  · simp [exec_ix, exec_ix_arm, vecGet, hb', hhi', hlo', herr]
  · simp [exec_ix, exec_ix_arm, vecGet, regGet, hb', hhi', hlo', hbnone]
  · intro pc hpc hc0 hc1 hc2 hc3 hbound
    have hcode : CODE_SEG_SIZE = 16384 := rfl
    have hm1 : (pc + 1) % 65536 = pc + 1 := Nat.mod_eq_of_lt (by omega)
    have hm2 : (pc + 2) % 65536 = pc + 2 := Nat.mod_eq_of_lt (by omega)
    have hr0 := read_code_seg_lt st.memory pc (by omega)
    have hr1 := read_code_seg_lt st.memory (pc + 1) (by omega)
    have hslice := read_code_seg_slice_le st.memory (pc + 2) 2 (by omega)
    rw [hc0] at hr0
    rw [hc1] at hr1
    rw [show List.range 2 = [0, 1] from rfl] at hslice
    simp only [List.map_cons, List.map_nil, Nat.add_zero] at hslice
    rw [hc2, show pc + 2 + 1 = pc + 3 from by omega, hc3, hb', hv'] at hslice
    unfold parseand_exec_ixs_seq
    simp [regGet, show Register.PC.into_usize = 9 from rfl, hpc, hm1, hm2,
      hr0, hr1, hslice, IX_SIZE_OFFSET, IX_DATA_OFFSET, IxType.toByte,
      IxType.try_from, hmov]

/-- Witness for C6: MOV with register byte 11 on a fresh VM returns the
InvalidRegister error. -/
theorem invalid_register_aborts_witness :
    (11 ≤ 11 ∧ VM.new.registers.length = 10) ∧
    exec_ix VM.new ⟨.MOV, 2, [11, 7]⟩ = .error (.invalidRegister 11) :=
  ⟨⟨by omega, by decide⟩,
    (invalid_register_aborts VM.new 11 7 0 0 0 (by omega) (by omega) (by omega)
      (by omega) (by omega) (by decide)).1⟩

/-- Counterexample for C6 as stated: STM with the unrecognized register
byte 11 does not return the InvalidRegister error; the raw byte indexes the
10-slot register array and the instruction dies with the bounds panic. -/
theorem invalid_register_aborts_counterexample :
    exec_ix VM.new ⟨.STM, 3, [0, 0, 11]⟩ = .error .rustPanic ∧
    Fault.rustPanic ≠ Fault.invalidRegister 11 :=
  ⟨rfl, by decide⟩

theorem vecGet_ok (xs : List Nat) (i b : Nat) (h : vecGet xs i = .ok b) :
    b = xs.getD i 0 % 256 ∧ i < xs.length := by
  unfold vecGet at h
  cases hx : xs[i]? with
  | none => rw [hx] at h; exact Except.noConfusion h
  | some w =>
    rw [hx] at h
    injection h with h'
    subst h'
    refine ⟨?_, getElem?_some_lt_length xs i w hx⟩
    rw [List.getD_eq_getElem?_getD, hx]
    rfl

theorem regSet_ok (regs : List Nat) (i v : Nat) (regs' : List Nat)
    (h : regSet regs i v = .ok regs') : regs' = regs.set i v ∧ i < regs.length := by
  unfold regSet at h
  split_ifs at h with hi
  injection h with h'
  exact ⟨h'.symm, hi⟩

/-- A successful non-PC-targeting instruction arm leaves the PC slot and
the register-file length unchanged. -/
theorem exec_ix_arm_preserves_pc (st st1 : VMState) (inx : Ix)
    (harm : exec_ix_arm st inx = .ok st1)
    (htgt : targets_pc inx = false) :
    st1.registers[9]? = st.registers[9]? ∧
    st1.registers.length = st.registers.length := by
  obtain ⟨t, sz, data⟩ := inx
  cases t with
  | NOP =>
    simp only [exec_ix_arm] at harm
    injection harm with h'
    subst h'
    exact ⟨rfl, rfl⟩
  | MOV =>
    simp only [exec_ix_arm] at harm
    simp only [targets_pc, beq_eq_false_iff_ne, ne_eq] at htgt
    split at harm
    · exact Except.noConfusion harm
    rename_i b0 h0
    split at harm
    · exact Except.noConfusion harm
    rename_i reg hreg
    split at harm
    · exact Except.noConfusion harm
    rename_i b1 h1
    split at harm
    · exact Except.noConfusion harm
    rename_i regs hregs
    injection harm with h'
    subst h'
    obtain ⟨hb0, _⟩ := vecGet_ok _ _ _ h0
    obtain ⟨hiu, _⟩ := register_try_from_ok _ _ hreg
    obtain ⟨hregs', _⟩ := regSet_ok _ _ _ _ hregs
    subst hregs'
    have hne : reg.into_usize ≠ 9 := by rw [hiu, hb0]; exact htgt
    exact ⟨List.getElem?_set_ne hne, List.length_set _ _ _⟩
  | LDM =>
    simp only [exec_ix_arm] at harm
    simp only [targets_pc, beq_eq_false_iff_ne, ne_eq] at htgt
    split at harm
    · exact Except.noConfusion harm
    rename_i b0 h0
    split at harm
    · exact Except.noConfusion harm
    rename_i b1 h1
    split at harm
    · exact Except.noConfusion harm
    rename_i d hd
    split at harm
    · exact Except.noConfusion harm
    rename_i b2 h2
    split at harm
    · exact Except.noConfusion harm
    rename_i reg hreg
    split at harm
    · exact Except.noConfusion harm
    rename_i regs hregs
    injection harm with h'
    subst h'
    obtain ⟨hb2, _⟩ := vecGet_ok _ _ _ h2
    obtain ⟨hiu, _⟩ := register_try_from_ok _ _ hreg
    obtain ⟨hregs', _⟩ := regSet_ok _ _ _ _ hregs
    subst hregs'
    have hne : reg.into_usize ≠ 9 := by rw [hiu, hb2]; exact htgt
    exact ⟨List.getElem?_set_ne hne, List.length_set _ _ _⟩
  | STM =>
    simp only [exec_ix_arm] at harm
    split at harm
    · exact Except.noConfusion harm
    rename_i b0 h0
    split at harm
    · exact Except.noConfusion harm
    rename_i b1 h1
    split at harm
    · exact Except.noConfusion harm
    rename_i b2 h2
    split at harm
    · exact Except.noConfusion harm
    rename_i rv hrv
    split at harm
    · exact Except.noConfusion harm
    rename_i mem hmem
    injection harm with h'
    subst h'
    exact ⟨rfl, rfl⟩
  | ADD =>
    simp only [exec_ix_arm] at harm
    simp only [targets_pc, beq_eq_false_iff_ne, ne_eq] at htgt
    split at harm
    · exact Except.noConfusion harm
    rename_i b0 h0
    split at harm
    · exact Except.noConfusion harm
    rename_i b1 h1
    split at harm
    · exact Except.noConfusion harm
    rename_i b2 h2
    split at harm
    · exact Except.noConfusion harm
    rename_i reg hreg
    split at harm
    · exact Except.noConfusion harm
    rename_i rv hrv
    split at harm
    · exact Except.noConfusion harm
    rename_i d hd
    split at harm
    · exact Except.noConfusion harm
    rename_i regs hregs
    injection harm with h'
    subst h'
    obtain ⟨hb2, _⟩ := vecGet_ok _ _ _ h2
    obtain ⟨hiu, _⟩ := register_try_from_ok _ _ hreg
    obtain ⟨hregs', _⟩ := regSet_ok _ _ _ _ hregs
    subst hregs'
    have hne : reg.into_usize ≠ 9 := by rw [hiu, hb2]; exact htgt
    exact ⟨List.getElem?_set_ne hne, List.length_set _ _ _⟩

/-- Claim C2 (amended): successful execution of a non-NOP instruction with
operand length L sets PC to (old PC + L + 2) mod 2^16, provided the
instruction does not itself write the PC register (target register byte
not 9 for MOV/LDM/ADD).  An instruction that moves into PC ends elsewhere;
see the counterexample. -/
theorem pc_advance (st st' : VMState) (inx : Ix) (pc : Nat)
    (hexec : exec_ix st inx = .ok st')
    (hnop : inx.ix_type ≠ IxType.NOP)
    (htgt : targets_pc inx = false)
    (hsz : inx.ix_data_size < 256)
    (hpc : st.registers[9]? = some pc) :
    st'.registers[9]? = some ((pc + inx.ix_data_size + IX_META_SIZE) % 65536) := by
  have hsz' : inx.ix_data_size % 256 = inx.ix_data_size := Nat.mod_eq_of_lt hsz
  unfold exec_ix at hexec
  split at hexec
  · exact Except.noConfusion hexec
  rename_i st1 harm
  obtain ⟨hp, _⟩ := exec_ix_arm_preserves_pc st st1 inx harm htgt
  have h9 : st1.registers[9]? = some pc := hp.trans hpc
  have h9lt : 9 < st1.registers.length := getElem?_some_lt_length _ _ _ h9
  rw [show Register.PC.into_usize = 9 from rfl] at hexec
  unfold regGet at hexec
  simp only [h9] at hexec
  unfold regSet at hexec
  rw [if_pos h9lt] at hexec
  simp only [hsz'] at hexec
  injection hexec with h'
  subst h'
  show (st1.registers.set 9 ((pc + inx.ix_data_size + IX_META_SIZE) % 65536))[9]? = _
  exact List.getElem?_set_eq_of_lt _ h9lt

def stC2' : VMState :=
  { registers := ((List.replicate 10 0).set 0 5).set 9 4
    memory := VM.new.memory }

/-- Witness for C2: MOV A, 5 (operand length 2) executed at PC 0 leaves PC
at (0 + 2 + 2) % 65536 = 4. -/
theorem pc_advance_witness :
    exec_ix VM.new ⟨.MOV, 2, [0, 5]⟩ = .ok stC2' ∧
    stC2'.registers[9]? = some ((0 + 2 + IX_META_SIZE) % 65536) :=
  ⟨rfl,
    pc_advance VM.new stC2' ⟨.MOV, 2, [0, 5]⟩ 0 rfl (by decide) (by decide)
      (by decide) (by decide)⟩

/-- Counterexample for C2 as stated: MOV PC, 50 is a non-NOP instruction
with operand length 2 that executes successfully, yet PC afterwards holds
54 = 50 + 4, an increase of 54 over its prior value 0, not 2 + 2 = 4. -/
theorem pc_advance_counterexample :
    (exec_ix VM.new ⟨.MOV, 2, [9, 50]⟩).bind (fun s => regGet s.registers 9) =
      .ok 54 ∧ (54 : Nat) ≠ (0 + 2 + 2) % 65536 :=
  ⟨rfl, by omega⟩

theorem getElem?_eq_some_getD (l : List Nat) (i : Nat) (h : i < l.length) :
    l[i]? = some (l.getD i 0) := by
  rw [List.getElem?_eq_getElem h, List.getD_eq_getElem?_getD,
    List.getElem?_eq_getElem h]
  rfl

theorem getD_lt_256 (data : List Nat) (i : Nat) (h : i < data.length)
    (hall : ∀ b ∈ data, b < 256) : data.getD i 0 < 256 := by
  rw [List.getD_eq_getElem?_getD, List.getElem?_eq_getElem h]
  exact hall _ (List.getElem_mem h)

/-- Composing a successful arm with the unconditional PC advance. -/
theorem exec_ix_eq_of_arm (st st1 : VMState) (inx : Ix) (pc : Nat)
    (harm : exec_ix_arm st inx = .ok st1)
    (hpc : st1.registers[9]? = some pc) :
    exec_ix st inx = .ok ⟨st1.registers.set 9
      ((pc + inx.ix_data_size % 256 + IX_META_SIZE) % 65536), st1.memory⟩ := by
  have h9lt : 9 < st1.registers.length := getElem?_some_lt_length _ _ _ hpc
  unfold exec_ix
  rw [harm, show Register.PC.into_usize = 9 from rfl]
  unfold regGet
  simp only [hpc]
  unfold regSet
  rw [if_pos h9lt]

theorem exec_arm_mov (st : VMState) (sz : Nat) (data : List Nat) (d0 d1 : Nat)
    (h0 : data[0]? = some d0) (h1 : data[1]? = some d1)
    (hd0 : d0 ≤ 8) (hd1 : d1 < 256)
    (hlen : st.registers.length = 10) :
    exec_ix_arm st ⟨.MOV, sz, data⟩ = .ok ⟨st.registers.set d0 d1, st.memory⟩ := by
  obtain ⟨reg, hreg, hiu⟩ := register_try_from_le d0 (by omega)
  simp [exec_ix_arm, vecGet, h0, h1, Nat.mod_eq_of_lt (show d0 < 256 by omega),
    Nat.mod_eq_of_lt hd1, hreg, hiu, regSet, hlen, show d0 < 10 from by omega]

theorem exec_arm_ldm (st : VMState) (sz : Nat) (data : List Nat) (d0 d1 d2 : Nat)
    (h0 : data[0]? = some d0) (h1 : data[1]? = some d1) (h2 : data[2]? = some d2)
    (hd0 : d0 < 256) (hd1 : d1 < 256) (hd2 : d2 ≤ 8)
    (haddr : get_addr_from_two_bytes d0 d1 < DATA_SEG_SIZE)
    (hlen : st.registers.length = 10) :
    exec_ix_arm st ⟨.LDM, sz, data⟩ =
      .ok ⟨st.registers.set d2
        (st.memory.data_seg (get_addr_from_two_bytes d0 d1) % 256), st.memory⟩ := by
  obtain ⟨reg, hreg, hiu⟩ := register_try_from_le d2 (by omega)
  have hread := read_data_seg_lt st.memory _ haddr
  simp [exec_ix_arm, vecGet, h0, h1, h2, Nat.mod_eq_of_lt hd0,
    Nat.mod_eq_of_lt hd1, Nat.mod_eq_of_lt (show d2 < 256 by omega),
    hread, hreg, hiu, regSet, hlen, show d2 < 10 from by omega]

theorem exec_arm_stm (st : VMState) (sz : Nat) (data : List Nat) (d0 d1 d2 : Nat)
    (h0 : data[0]? = some d0) (h1 : data[1]? = some d1) (h2 : data[2]? = some d2)
    (hd0 : d0 < 256) (hd1 : d1 < 256) (hd2 : d2 ≤ 9)
    (haddr : get_addr_from_two_bytes d0 d1 < DATA_SEG_SIZE)
    (hlen : st.registers.length = 10) :
    ∃ mem' : Memory, exec_ix_arm st ⟨.STM, sz, data⟩ = .ok ⟨st.registers, mem'⟩ ∧
      mem'.code_seg = st.memory.code_seg := by
  have hd2lt : d2 < st.registers.length := by omega
  have hreg := List.getElem?_eq_getElem hd2lt
  have hwrite := write_data_seg_lt st.memory
    (st.registers[d2] % 256) (get_addr_from_two_bytes d0 d1) haddr
  refine ⟨{ st.memory with data_seg := fun i =>
      if i = get_addr_from_two_bytes d0 d1 then st.registers[d2] % 256
      else st.memory.data_seg i }, ?_, rfl⟩
  simp [exec_ix_arm, vecGet, regGet, h0, h1, h2, Nat.mod_eq_of_lt hd0,
    Nat.mod_eq_of_lt hd1, Nat.mod_eq_of_lt (show d2 < 256 by omega),
    hreg, hwrite]

theorem exec_arm_add (st : VMState) (sz : Nat) (data : List Nat) (d0 d1 d2 : Nat)
    (h0 : data[0]? = some d0) (h1 : data[1]? = some d1) (h2 : data[2]? = some d2)
    (hd0 : d0 < 256) (hd1 : d1 < 256) (hd2 : d2 ≤ 8)
    (haddr : get_addr_from_two_bytes d0 d1 < DATA_SEG_SIZE)
    (hlen : st.registers.length = 10) :
    exec_ix_arm st ⟨.ADD, sz, data⟩ =
      .ok ⟨st.registers.set d2
        ((st.registers[d2] +
          st.memory.data_seg (get_addr_from_two_bytes d0 d1) % 256) % 65536),
        st.memory⟩ := by
  obtain ⟨reg, hreg, hiu⟩ := register_try_from_le d2 (by omega)
  have hd2lt : d2 < st.registers.length := by omega
  have hregval := List.getElem?_eq_getElem hd2lt
  have hread := read_data_seg_lt st.memory _ haddr
  simp [exec_ix_arm, vecGet, regGet, h0, h1, h2, Nat.mod_eq_of_lt hd0,
    Nat.mod_eq_of_lt hd1, Nat.mod_eq_of_lt (show d2 < 256 by omega),
    hread, hreg, hiu, hregval, regSet, hlen, show d2 < 10 from by omega]

/-- A well-formed instruction executes successfully from any state whose
register file has its 10 slots, leaving the code segment untouched and
advancing PC by exactly its operand length + 2. -/
theorem exec_ix_wf (st : VMState) (inx : Ix) (pc : Nat)
    (hwf : wf_ix inx = true)
    (hlen : st.registers.length = 10)
    (hpc : st.registers[9]? = some pc)
    (hpc16 : pc + inx.ix_data_size + IX_META_SIZE < 65536) :
    ∃ st' : VMState,
      exec_ix st inx = .ok st' ∧
      st'.memory.code_seg = st.memory.code_seg ∧
      st'.registers.length = 10 ∧
      st'.registers[9]? = some (pc + inx.ix_data_size + IX_META_SIZE) := by
  obtain ⟨t, sz, data⟩ := inx
  dsimp only at hpc16 ⊢
  rw [wf_ix] at hwf
  dsimp only at hwf
  cases t with
  | NOP => simp at hwf
  | MOV =>
    simp only [Bool.and_eq_true, decide_eq_true_eq, beq_iff_eq,
      List.all_eq_true, decide_eq_true_eq] at hwf
    obtain ⟨⟨⟨hsz, hl256⟩, hall'⟩, h2le, hd0le⟩ := hwf
    have hsz256 : sz % 256 = sz := Nat.mod_eq_of_lt (by omega)
    have hfinmod : (pc + sz + IX_META_SIZE) % 65536 = pc + sz + IX_META_SIZE :=
      Nat.mod_eq_of_lt (by omega)
    have h0 := getElem?_eq_some_getD data 0 (by omega)
    have h1 := getElem?_eq_some_getD data 1 (by omega)
    have hd1 := getD_lt_256 data 1 (by omega) hall'
    have harm := exec_arm_mov st sz data _ _ h0 h1 hd0le hd1 hlen
    have h9 : (st.registers.set (data.getD 0 0) (data.getD 1 0))[9]? = some pc := by
      rw [List.getElem?_set_ne (by omega), hpc]
    have hstep := exec_ix_eq_of_arm st _ ⟨.MOV, sz, data⟩ pc harm h9
    refine ⟨_, hstep, rfl, by simp [hlen], ?_⟩
    show ((st.registers.set _ _).set 9 ((pc + sz % 256 + IX_META_SIZE) % 65536))[9]? = _
    rw [hsz256, hfinmod]
    exact List.getElem?_set_eq_of_lt _ (by simp [hlen])
  | LDM =>
    simp only [Bool.and_eq_true, decide_eq_true_eq, beq_iff_eq,
      List.all_eq_true, decide_eq_true_eq] at hwf
    obtain ⟨⟨⟨hsz, hl256⟩, hall'⟩, ⟨h3le, hd2le⟩, haddr⟩ := hwf
    have hsz256 : sz % 256 = sz := Nat.mod_eq_of_lt (by omega)
    have hfinmod : (pc + sz + IX_META_SIZE) % 65536 = pc + sz + IX_META_SIZE :=
      Nat.mod_eq_of_lt (by omega)
    have h0 := getElem?_eq_some_getD data 0 (by omega)
    have h1 := getElem?_eq_some_getD data 1 (by omega)
    have h2 := getElem?_eq_some_getD data 2 (by omega)
    have hd0 := getD_lt_256 data 0 (by omega) hall'
    have hd1 := getD_lt_256 data 1 (by omega) hall'
    have harm := exec_arm_ldm st sz data _ _ _ h0 h1 h2 hd0 hd1 hd2le haddr hlen
    have h9 : (st.registers.set (data.getD 2 0)
        (st.memory.data_seg (get_addr_from_two_bytes (data.getD 0 0) (data.getD 1 0)) % 256))[9]? =
        some pc := by
      rw [List.getElem?_set_ne (by omega), hpc]
    have hstep := exec_ix_eq_of_arm st _ ⟨.LDM, sz, data⟩ pc harm h9
    refine ⟨_, hstep, rfl, by simp [hlen], ?_⟩
    show ((st.registers.set _ _).set 9 ((pc + sz % 256 + IX_META_SIZE) % 65536))[9]? = _
    rw [hsz256, hfinmod]
    exact List.getElem?_set_eq_of_lt _ (by simp [hlen])
  | STM =>
    simp only [Bool.and_eq_true, decide_eq_true_eq, beq_iff_eq,
      List.all_eq_true, decide_eq_true_eq] at hwf
    obtain ⟨⟨⟨hsz, hl256⟩, hall'⟩, ⟨h3le, hd2le⟩, haddr⟩ := hwf
    have hsz256 : sz % 256 = sz := Nat.mod_eq_of_lt (by omega)
    have hfinmod : (pc + sz + IX_META_SIZE) % 65536 = pc + sz + IX_META_SIZE :=
      Nat.mod_eq_of_lt (by omega)
    have h0 := getElem?_eq_some_getD data 0 (by omega)
    have h1 := getElem?_eq_some_getD data 1 (by omega)
    have h2 := getElem?_eq_some_getD data 2 (by omega)
    have hd0 := getD_lt_256 data 0 (by omega) hall'
    have hd1 := getD_lt_256 data 1 (by omega) hall'
    obtain ⟨mem', harm, hcode⟩ :=
      exec_arm_stm st sz data _ _ _ h0 h1 h2 hd0 hd1 hd2le haddr hlen
    have h9 : (⟨st.registers, mem'⟩ : VMState).registers[9]? = some pc := hpc
    have hstep := exec_ix_eq_of_arm st _ ⟨.STM, sz, data⟩ pc harm h9
    refine ⟨_, hstep, hcode, by simp [hlen], ?_⟩
    show (st.registers.set 9 ((pc + sz % 256 + IX_META_SIZE) % 65536))[9]? = _
    rw [hsz256, hfinmod]
    exact List.getElem?_set_eq_of_lt _ (by omega)
  | ADD =>
    simp only [Bool.and_eq_true, decide_eq_true_eq, beq_iff_eq,
      List.all_eq_true, decide_eq_true_eq] at hwf
    obtain ⟨⟨⟨hsz, hl256⟩, hall'⟩, ⟨h3le, hd2le⟩, haddr⟩ := hwf
    have hsz256 : sz % 256 = sz := Nat.mod_eq_of_lt (by omega)
    have hfinmod : (pc + sz + IX_META_SIZE) % 65536 = pc + sz + IX_META_SIZE :=
      Nat.mod_eq_of_lt (by omega)
    have h0 := getElem?_eq_some_getD data 0 (by omega)
    have h1 := getElem?_eq_some_getD data 1 (by omega)
    have h2 := getElem?_eq_some_getD data 2 (by omega)
    have hd0 := getD_lt_256 data 0 (by omega) hall'
    have hd1 := getD_lt_256 data 1 (by omega) hall'
    have harm := exec_arm_add st sz data _ _ _ h0 h1 h2 hd0 hd1 hd2le haddr hlen
    have h9 : ∀ y : Nat, (st.registers.set (data.getD 2 0) y)[9]? = some pc :=
      fun y => by rw [List.getElem?_set_ne (by omega), hpc]
    have hstep := exec_ix_eq_of_arm st _ ⟨.ADD, sz, data⟩ pc harm (h9 _)
    refine ⟨_, hstep, rfl, by simp [hlen], ?_⟩
    show ((st.registers.set _ _).set 9 ((pc + sz % 256 + IX_META_SIZE) % 65536))[9]? = _
    rw [hsz256, hfinmod]
    exact List.getElem?_set_eq_of_lt _ (by simp [hlen])

theorem wf_ix_size (inx : Ix) (h : wf_ix inx = true) :
    inx.ix_data_size = inx.ix_data.length := by
  obtain ⟨t, s, d⟩ := inx
  rw [wf_ix] at h
  dsimp only at h ⊢
  simp only [Bool.and_eq_true, beq_iff_eq] at h
  exact h.1.1.1

theorem wf_ix_len_lt (inx : Ix) (h : wf_ix inx = true) :
    inx.ix_data.length < 256 := by
  obtain ⟨t, s, d⟩ := inx
  rw [wf_ix] at h
  dsimp only at h ⊢
  simp only [Bool.and_eq_true, decide_eq_true_eq] at h
  exact h.1.1.2

theorem wf_ix_bytes (inx : Ix) (h : wf_ix inx = true) :
    ∀ b ∈ inx.ix_data, b < 256 := by
  obtain ⟨t, s, d⟩ := inx
  rw [wf_ix] at h
  dsimp only at h ⊢
  simp only [Bool.and_eq_true, List.all_eq_true, decide_eq_true_eq] at h
  exact h.1.2

theorem wf_ix_toByte_ne (inx : Ix) (h : wf_ix inx = true) :
    inx.ix_type.toByte ≠ 0 := by
  obtain ⟨t, s, d⟩ := inx
  cases t <;> simp_all [wf_ix, IxType.toByte]

theorem toByte_lt_five (t : IxType) : t.toByte < 5 := by
  cases t <;> simp [IxType.toByte]

theorem toByte_try_from (t : IxType) : IxType.try_from t.toByte = .ok t := by
  cases t <;> rfl

theorem laid_out_append (c : Nat → Nat) (pc0 : Nat) (a b : List Nat)
    (h : laid_out c pc0 (a ++ b)) : laid_out c (pc0 + a.length) b := by
  intro i hi
  have h2 := h (a.length + i) (by rw [List.length_append]; omega)
  rw [getD_append_ge a b (a.length + i) (Nat.le_add_right _ _)] at h2
  rw [Nat.add_sub_cancel_left] at h2
  rw [← Nat.add_assoc] at h2
  exact h2

/-- One decode step of the sequential loop at a laid-out well-formed
instruction reproduces exactly that instruction's header and operand
bytes. -/
theorem decode_at (m : Memory) (pc0 : Nat) (inx : Ix) (rest : List Nat)
    (hwf : wf_ix inx = true)
    (hlay : laid_out m.code_seg pc0 (encode_ix inx ++ rest))
    (hbound : pc0 + (encode_ix inx ++ rest).length ≤ CODE_SEG_SIZE) :
    m.read_code_seg pc0 = .ok inx.ix_type.toByte ∧
    m.read_code_seg ((pc0 + IX_SIZE_OFFSET) % 65536) = .ok inx.ix_data.length ∧
    m.read_code_seg_slice ((pc0 + IX_DATA_OFFSET) % 65536) inx.ix_data.length =
      .ok inx.ix_data := by
  have hck : encode_ix inx ++ rest =
      inx.ix_type.toByte :: inx.ix_data.length :: (inx.ix_data ++ rest) := rfl
  have hlength : (encode_ix inx ++ rest).length =
      2 + inx.ix_data.length + rest.length := by
    simp [encode_ix]; omega
  have hcs : CODE_SEG_SIZE = 16384 := rfl
  have hl256 := wf_ix_len_lt inx hwf
  have hbytes := wf_ix_bytes inx hwf
  have h1mod : (pc0 + IX_SIZE_OFFSET) % 65536 = pc0 + 1 := by
    show (pc0 + 1) % 65536 = pc0 + 1
    exact Nat.mod_eq_of_lt (by omega)
  have h2mod : (pc0 + IX_DATA_OFFSET) % 65536 = pc0 + 2 := by
    show (pc0 + 2) % 65536 = pc0 + 2
    exact Nat.mod_eq_of_lt (by omega)
  refine ⟨?_, ?_, ?_⟩
  · have hr := read_code_seg_lt m pc0 (by omega)
    have hc0 := hlay 0 (by omega)
    rw [Nat.add_zero] at hc0
    rw [hck] at hc0
    rw [hr, hc0]
    show Except.ok ((encode_ix inx ++ rest).getD 0 0 % 256) = _
    rw [hck]
    show Except.ok (inx.ix_type.toByte % 256) = _
    rw [Nat.mod_eq_of_lt (by have := toByte_lt_five inx.ix_type; omega)]
  · rw [h1mod]
    have hr := read_code_seg_lt m (pc0 + 1) (by omega)
    have hc1 := hlay 1 (by omega)
    rw [hck] at hc1
    rw [hr, hc1]
    show Except.ok ((encode_ix inx ++ rest).getD 1 0 % 256) = _
    rw [hck]
    show Except.ok (inx.ix_data.length % 256) = _
    rw [Nat.mod_eq_of_lt hl256]
  · rw [h2mod]
    have hr := read_code_seg_slice_le m (pc0 + 2) inx.ix_data.length (by omega)
    rw [hr]
    congr 1
    refine map_range_eq inx.ix_data _ ?_
    intro i hi
    have hci := hlay (i + 2) (by omega)
    rw [hck] at hci
    have hgd : (inx.ix_type.toByte :: inx.ix_data.length ::
        (inx.ix_data ++ rest)).getD (i + 2) 0 = inx.ix_data.getD i 0 := by
      show (inx.ix_data ++ rest).getD i 0 = inx.ix_data.getD i 0
      exact getD_append_lt _ _ _ hi
    rw [hgd] at hci
    show m.code_seg (pc0 + 2 + i) % 256 = inx.ix_data.getD i 0
    rw [show pc0 + 2 + i = pc0 + (i + 2) from by omega, hci]
    exact Nat.mod_eq_of_lt (getD_lt_256 _ _ hi hbytes)

/-- Sequential execution of a laid-out, well-formed, NOP-terminated
program: every instruction is executed once, in order, and the machine
halts. -/
theorem seq_run_wf (p : List Ix) : ∀ (st : VMState) (pc0 fuel : Nat),
    p.all wf_ix = true →
    st.registers.length = 10 →
    st.registers[9]? = some pc0 →
    laid_out st.memory.code_seg pc0 (encode_program p) →
    pc0 + (encode_program p).length ≤ CODE_SEG_SIZE →
    p.length < fuel →
    ∃ st', parseand_exec_ixs_seq fuel st = .halted st' p := by
  induction p with
  | nil =>
    intro st pc0 fuel _ hlen hpc hlay hbound hfuel
    cases fuel with
    | zero => omega
    | succ f =>
      have hcs : CODE_SEG_SIZE = 16384 := rfl
      have hblen : (encode_program ([] : List Ix)).length = 1 := rfl
      have hc0 := hlay 0 (by omega)
      rw [Nat.add_zero] at hc0
      have hr := read_code_seg_lt st.memory pc0 (by omega)
      rw [hc0] at hr
      refine ⟨st, ?_⟩
      simp only [parseand_exec_ixs_seq, regGet,
        show Register.PC.into_usize = 9 from rfl, hpc, hr]
      rfl
  | cons inx p' ih =>
    intro st pc0 fuel hwf hlen hpc hlay hbound hfuel
    cases fuel with
    | zero => omega
    | succ f =>
      rw [List.all_cons, Bool.and_eq_true] at hwf
      obtain ⟨hwf1, hwf2⟩ := hwf
      have hcs : CODE_SEG_SIZE = 16384 := rfl
      have henc : encode_program (inx :: p') =
          encode_ix inx ++ encode_program p' := rfl
      have hlength : (encode_ix inx).length = 2 + inx.ix_data.length := by
        simp [encode_ix]; omega
      rw [henc] at hlay hbound
      rw [List.length_append] at hbound
      have hsz := wf_ix_size inx hwf1
      have hmeta : IX_META_SIZE = 2 := rfl
      have hpc16 : pc0 + inx.ix_data_size + IX_META_SIZE < 65536 := by omega
      obtain ⟨st1, hexec, hcode, hlen1, hpc1⟩ :=
        exec_ix_wf st inx pc0 hwf1 hlen hpc hpc16
      obtain ⟨hd0, hd1, hd2⟩ := decode_at st.memory pc0 inx (encode_program p')
        hwf1 hlay (by rw [List.length_append]; omega)
      have hpcnext : pc0 + inx.ix_data_size + IX_META_SIZE =
          pc0 + (encode_ix inx).length := by omega
      have hlay1 : laid_out st1.memory.code_seg (pc0 + (encode_ix inx).length)
          (encode_program p') := by
        rw [hcode]
        exact laid_out_append _ _ _ _ hlay
      rw [hpcnext] at hpc1
      obtain ⟨st', hrun⟩ := ih st1 (pc0 + (encode_ix inx).length) f hwf2 hlen1
        hpc1 hlay1 (by omega) (by simp at hfuel; omega)
      refine ⟨st', ?_⟩
      have hne : ¬ (inx.ix_type.toByte = IxType.NOP.toByte) := by
        have := wf_ix_toByte_ne inx hwf1
        simpa [IxType.toByte] using this
      have hinx : (⟨inx.ix_type, inx.ix_data.length, inx.ix_data⟩ : Ix) = inx := by
        obtain ⟨t, s, d⟩ := inx
        dsimp only at hsz ⊢
        rw [hsz]
      simp only [parseand_exec_ixs_seq, regGet,
        show Register.PC.into_usize = 9 from rfl, hpc, hd0]
      rw [if_neg hne]
      simp only [hd1, hd2, toByte_try_from, hinx, hexec, hrun]
      rfl

/-- Claim C1 (amended): sequential mode on a program laid out as k
well-formed non-NOP instructions followed by a NOP opcode byte, with PC at
the first instruction, executes exactly those k instructions, in program
order, once each, and halts with Ok — provided no instruction writes the
PC register (`wf_ix` additionally requires the intact size field, byte
operands, sufficient operand count, an in-range non-PC target register and
an in-bounds data address).  Without the no-PC-write proviso the claim
fails; see the counterexample. -/
theorem seq_executes_program (p : List Ix) (st : VMState) (pc0 fuel : Nat)
    (hwf : p.all wf_ix = true)
    (hlen : st.registers.length = 10)
    (hpc : st.registers[9]? = some pc0)
    (hlay : laid_out st.memory.code_seg pc0 (encode_program p))
    (hbound : pc0 + (encode_program p).length ≤ CODE_SEG_SIZE)
    (hfuel : p.length < fuel) :
    (parseand_exec_ixs_seq fuel st).isHalted = true ∧
    (parseand_exec_ixs_seq fuel st).trace = p := by
  obtain ⟨st', h⟩ := seq_run_wf p st pc0 fuel hwf hlen hpc hlay hbound hfuel
  rw [h]
  exact ⟨rfl, rfl⟩

def pW : List Ix := [⟨.MOV, 2, [0, 7]⟩, ⟨.ADD, 3, [0, 0, 1]⟩]

def stW1 : VMState :=
  { registers := List.replicate 10 0
    memory := { VM.new.memory with
      code_seg := fun i => [1, 2, 0, 7, 4, 3, 0, 0, 1, 0].getD i 0 } }

/-- Witness for C1: a MOV followed by an ADD, then the NOP byte, executes
exactly those two instructions in order and halts. -/
theorem seq_executes_program_witness :
    (parseand_exec_ixs_seq 3 stW1).isHalted = true ∧
    (parseand_exec_ixs_seq 3 stW1).trace = pW :=
  seq_executes_program pW stW1 0 3 (by decide) (by decide) (by decide)
    (by decide) (by decide) (by decide)

def stX : VMState :=
  { registers := List.replicate 10 0
    memory := { VM.new.memory with
      code_seg := fun i => [1, 2, 9, 4, 1, 2, 0, 7, 0].getD i 0 } }

/-- Counterexample for C1 as stated: the two-instruction program
[MOV PC, 4; MOV A, 7] terminated by NOP consists of decodable
instructions that each execute without error, yet sequential mode executes
only the first one — the MOV into PC (advanced to 4 + 4 = 8 by the
unconditional PC bump) lands the loop directly on the NOP byte at offset
8, skipping the second instruction entirely. -/
theorem seq_executes_program_counterexample :
    (parseand_exec_ixs_seq 3 stX).isHalted = true ∧
    (parseand_exec_ixs_seq 3 stX).trace = [⟨.MOV, 2, [9, 4]⟩] ∧
    ([⟨.MOV, 2, [9, 4]⟩] : List Ix) ≠ [⟨.MOV, 2, [9, 4]⟩, ⟨.MOV, 2, [0, 7]⟩] := by
  refine ⟨?_, ?_, ?_⟩ <;> decide

end RustVM
